import Mathlib

/-!
Verification development for the command-registry / dispatch / lifecycle core of
src/generic/tclBasic.c.  The data model and operations below are shallow
embeddings of the C code: hash tables become association lists, pointers become
identifiers looked up in finite maps, machine integers become Int/Nat, and
external user callbacks (command implementations, trace procedures, deletion
hooks) become oracle function parameters whose state effects are either passed
through or recorded in an event log.
-/

namespace TclCore

/-! ### Result codes (tcl.h) -/

def TCL_OK : Int := 0

def TCL_ERROR : Int := 1

def TCL_RETURN : Int := 2

def TCL_BREAK : Int := 3

def TCL_CONTINUE : Int := 4

/-! ### Association-list tables

A Tcl_HashTable is modelled as an association list.  `tFind` models
Tcl_FindHashEntry, `tErase` models Tcl_DeleteHashEntry, consing models
Tcl_CreateHashEntry + Tcl_SetHashValue for a fresh key, and `tSet` models
Tcl_SetHashValue on an existing entry.  The same functions serve the
namespace command tables (string keys), the hidden-command table (string
keys) and the heap of Command structs (ids as keys). -/

def tFind {α β : Type} [DecidableEq α] (key : α) : List (α × β) → Option β
  | [] => none
  | (k, v) :: rest => if k = key then some v else tFind key rest

def tErase {α β : Type} [DecidableEq α] (key : α) : List (α × β) → List (α × β)
  | [] => []
  | (k, v) :: rest => if k = key then tErase key rest else (k, v) :: tErase key rest

def tSet {α β : Type} [DecidableEq α] (key : α) (val : β) : List (α × β) → List (α × β)
  | [] => []
  | (k, v) :: rest =>
    if k = key then (k, val) :: tSet key val rest else (k, v) :: tSet key val rest

def tKeys {α β : Type} (t : List (α × β)) : List α := t.map (fun p => p.1)

/-! ### Commands

One `Cmd` record per Command struct (tclInt.h).  `hPtr` records which table
entry (if any) points at this command; `objClientDataReal` models the
ImportedCmdData.realCmdPtr field carried by commands created by namespace
import; `importRefs` is the importRefPtr chain (ids of the importing
commands); `traceCount` is the length of the tracePtr list. -/

inductive TablePtr where
  | ns (nsName : String) (key : String)
  | hidden (key : String)
deriving DecidableEq

structure Cmd where
  hPtr : Option TablePtr
  nsPtr : String
  refCount : Int
  cmdEpoch : Nat
  hasCompileProc : Bool
  objProc : Nat
  objClientDataReal : Option Nat
  hasDeleteProc : Bool
  isDeletedFlag : Bool
  hasExecTraces : Bool
  importRefs : List Nat
  traceCount : Nat
deriving DecidableEq

/-- Distinguished objProc value standing for the TclInvokeStringCommand wrapper;
0 stands for NULL (the invalid proc installed on deletion). -/
def tclInvokeStringCommandId : Nat := 1

/-! ### Interpreter state

The slice of the Interp struct used by the operations below: the DELETED flag,
the nesting counter and limit, the command counter, the compile epoch, the
result string, the namespace tree (each namespace owning a command table), the
lazily created hidden-command table, the command structs (addressed by id), and
whether interpreter-wide execution traces exist (iPtr->tracePtr != NULL). -/

structure Interp where
  interpDeleted : Bool
  numLevels : Nat
  maxNestingDepth : Int
  cmdCount : Nat
  compileEpoch : Nat
  result : String
  namespaces : List (String × List (String × Nat))
  hiddenCmdTable : Option (List (String × Nat))
  commands : List (Nat × Cmd)
  hasInterpTraces : Bool
deriving DecidableEq

def globalNsName : String := "::"

def nsTable (st : Interp) (nsName : String) : List (String × Nat) :=
  (tFind nsName st.namespaces).getD []

/-- Remove the hash entry a command's hPtr designates (Tcl_DeleteHashEntry on
cmdPtr->hPtr): either an entry of a namespace command table or of the
interpreter's hidden-command table. -/
def deleteEntry (st : Interp) : TablePtr → Interp
  | TablePtr.ns n k =>
    { st with namespaces := tSet n (tErase k (nsTable st n)) st.namespaces }
  | TablePtr.hidden k =>
    { st with hiddenCmdTable := st.hiddenCmdTable.map (tErase k) }

/-! ### Events

External callbacks (delete traces, rename traces, deletion hooks) are user
code whose own state effects are outside this core; firing them is recorded as
an event.  Epoch bumps and frees are recorded as well so they stay observable
after a struct is freed. -/

inductive Event where
  | firedDeleteTraces (cid : Nat)
  | firedRenameTraces (cid : Nat)
  | ranDeleteProc (cid : Nat)
  | bumpedCmdEpoch (cid : Nat)
  | bumpedCompileEpoch
  | freed (cid : Nat)
deriving DecidableEq

/-! ### TclCleanupCommand (tclBasic.c:2758) -/

def TclCleanupCommand (st : Interp) (cid : Nat) : Interp × List Event :=
  match tFind cid st.commands with
  | none => (st, [])
  | some c =>
    if c.refCount - 1 ≤ 0 then
      ({ st with commands := tErase cid st.commands }, [Event.freed cid])
    else
      ({ st with commands := tSet cid { c with refCount := c.refCount - 1 } st.commands }, [])

/-! ### Tcl_DeleteCommandFromToken (tclBasic.c:2480)

The recursion over import references is bounded by explicit fuel (the C code
relies on the import graph being acyclic).  Namespace lookup-cache
invalidation (TclInvalidateNsCmdLookup) touches only caches that are not part
of this model.  A `none` result means the fuel ran out; looking up an id with
no struct (impossible for the C pointer) is treated as a no-op returning 0. -/

def Tcl_DeleteCommandFromToken (fuel : Nat) (st : Interp) (cid : Nat) :
    Option (Int × Interp × List Event) :=
  match fuel with
  | 0 => none
  | fuel + 1 =>
    match tFind cid st.commands with
    | none => some (0, st, [])
    | some c =>
      if c.isDeletedFlag then
        -- Another deletion is already in progress: remove the hash table entry
        -- now (if not already removed), but invoke no callback and free nothing.
        match c.hPtr with
        | some r =>
          let st1 := deleteEntry st r
          some (0, { st1 with commands := tSet cid { c with hPtr := none } st1.commands }, [])
        | none => some (0, st, [])
      else
        -- First deletion: set the flag so recursive deletes are ignored.
        let c1 : Cmd := { c with isDeletedFlag := true }
        -- Fire delete traces (if any), then discard the trace list.
        let evs1 := if c1.traceCount ≠ 0 then [Event.firedDeleteTraces cid] else []
        let c2 : Cmd := { c1 with traceCount := 0 }
        let st2 : Interp := { st with commands := tSet cid c2 st.commands }
        -- Bump the compile epoch if the command has a compile procedure.
        let st3 : Interp :=
          if c2.hasCompileProc then { st2 with compileEpoch := st2.compileEpoch + 1 } else st2
        let evs2 := evs1 ++ if c2.hasCompileProc then [Event.bumpedCompileEpoch] else []
        -- Invoke the deletion hook (external user code; its effects on the
        -- interpreter are outside this model).
        let evs3 := evs2 ++ if c2.hasDeleteProc then [Event.ranDeleteProc cid] else []
        -- Bump the command epoch.
        let st4 : Interp :=
          { st3 with commands := tSet cid { c2 with cmdEpoch := c2.cmdEpoch + 1 } st3.commands }
        let evs4 := evs3 ++ [Event.bumpedCmdEpoch cid]
        -- Recursively delete every command created by importing this one.
        let folded := c2.importRefs.foldl
          (fun (acc : Option (Interp × List Event)) (r : Nat) =>
            match acc with
            | none => none
            | some (s, evs) =>
              match Tcl_DeleteCommandFromToken fuel s r with
              | none => none
              | some (_, s2, evs2) => some (s2, evs ++ evs2))
          (some (st4, evs4))
        match folded with
        | none => none
        | some (st5, evs5) =>
          match tFind cid st5.commands with
          | none => some (0, st5, evs5)
          | some c5 =>
            -- Remove the table entry using the command's own remembered entry
            -- pointer (a hook may have relocated it), mark the implementation
            -- handle invalid, then release one reference.
            let st6 :=
              match c5.hPtr with
              | some r => deleteEntry st5 r
              | none => st5
            let st7 : Interp :=
              { st6 with commands := tSet cid { c5 with hPtr := none, objProc := 0 } st6.commands }
            let (st8, evs6) := TclCleanupCommand st7 cid
            some (0, st8, evs5 ++ evs6)

/-! ### Tcl_CreateObjCommand (tclBasic.c:1655)

Qualified-name resolution (TclGetNamespaceForQualName, tclNamesp.c) is outside
src/, so the operation takes the resolved target namespace and tail; an
unqualified name resolves to the global namespace (tclBasic.c:1701-1704).
`newId` stands for the freshly allocated Command struct's address. -/

def relinkImports (newId : Nat) : List Nat → List (Nat × Cmd) → List (Nat × Cmd)
  | [], cmds => cmds
  | r :: rest, cmds =>
    let cmds2 :=
      match tFind r cmds with
      | some rc => tSet r { rc with objClientDataReal := some newId } cmds
      | none => cmds
    relinkImports newId rest cmds2

/-- The Command struct Tcl_CreateObjCommand allocates and initializes
(tclBasic.c:1756-1771). -/
def freshCmd (nsName tail : String) (objProc : Nat) (hasDeleteProc : Bool)
    (oldRefs : List Nat) : Cmd :=
  { hPtr := some (TablePtr.ns nsName tail)
    nsPtr := nsName
    refCount := 1
    cmdEpoch := 0
    hasCompileProc := false
    objProc := objProc
    objClientDataReal := none
    hasDeleteProc := hasDeleteProc
    isDeletedFlag := false
    hasExecTraces := false
    importRefs := oldRefs
    traceCount := 0 }

/-- Shared tail of Tcl_CreateObjCommand: allocate and link the fresh Command,
then update every preserved import reference to point at it
(tclBasic.c:1756-1786).  TclResetShadowedCmdRefs only invalidates lookup
caches, which are not part of this model. -/
def finishCreate (st : Interp) (nsName tail : String) (newId objProc : Nat)
    (hasDeleteProc : Bool) (oldRefs : List Nat) (evs : List Event) :
    Option (Option Nat × Interp × List Event) :=
  let newCmd : Cmd := freshCmd nsName tail objProc hasDeleteProc oldRefs
  let st1 : Interp :=
    { st with
      namespaces := tSet nsName ((tail, newId) :: tErase tail (nsTable st nsName)) st.namespaces
      commands := (newId, newCmd) :: st.commands }
  let st2 : Interp := { st1 with commands := relinkImports newId oldRefs st1.commands }
  some (some newId, st2, evs)

def Tcl_CreateObjCommand (fuel : Nat) (st : Interp) (nsName tail : String)
    (newId objProc : Nat) (hasDeleteProc : Bool) :
    Option (Option Nat × Interp × List Event) :=
  if st.interpDeleted then some (none, st, [])
  else
    match tFind nsName st.namespaces with
    | none => some (none, st, [])
    | some tbl =>
      match tFind tail tbl with
      | some oldId =>
        match tFind oldId st.commands with
        | none => none
        | some oldC =>
          if oldC.objProc = tclInvokeStringCommandId then
            -- The command exists and was made by Tcl_CreateCommand: just
            -- install the object proc and delete hook in place.
            let updated : Cmd :=
              { oldC with
                objProc := objProc
                objClientDataReal := none
                hasDeleteProc := hasDeleteProc }
            some (some oldId, { st with commands := tSet oldId updated st.commands }, [])
          else
            -- Delete the old command, preserving its import links for
            -- relinking below.
            let oldRefs := oldC.importRefs
            let st1 : Interp :=
              { st with commands := tSet oldId { oldC with importRefs := [] } st.commands }
            match Tcl_DeleteCommandFromToken fuel st1 oldId with
            | none => none
            | some (_, st2, evs) =>
              -- Recreate the hash entry; if the deletion callback recreated
              -- the command, throw the recreated struct away.
              match tFind tail (nsTable st2 nsName) with
              | some rid =>
                let st3 : Interp := { st2 with commands := tErase rid st2.commands }
                finishCreate st3 nsName tail newId objProc hasDeleteProc oldRefs
                  (evs ++ [Event.freed rid])
              | none => finishCreate st2 nsName tail newId objProc hasDeleteProc oldRefs evs
      | none => finishCreate st nsName tail newId objProc hasDeleteProc [] []

/-! ### TclRenameCommand (tclBasic.c:1986)

Tcl_FindCommand and TclGetNamespaceForQualName live in tclNamesp.c (outside
src/), so the operation takes their results: `oldCmd` is the resolved source
command (none = not found) and `resolvedNew` is the destination namespace and
tail resolved from `newName` (none = bad command name).  TclPreventAliasLoop
lives in tclInterp.c (outside src/); its completion code is the
`aliasLoopCode` parameter.  Tcl_GetCommandFullName and the DString building
feed only the trace callbacks, which are recorded as an event. -/

def TclRenameCommand (fuel : Nat) (st : Interp) (oldCmd : Option Nat)
    (newName : Option String) (resolvedNew : Option (String × String))
    (aliasLoopCode : Int) : Option (Int × Interp × List Event) :=
  match oldCmd with
  | none => some (TCL_ERROR, st, [])
  | some cid =>
    match tFind cid st.commands with
    | none => none
    | some c =>
      if newName = none ∨ newName = some "" then
        -- The new command name is empty: delete the command.
        match Tcl_DeleteCommandFromToken fuel st cid with
        | none => none
        | some (_, st1, evs) => some (TCL_OK, st1, evs)
      else
        match resolvedNew with
        | none => some (TCL_ERROR, st, [])
        | some (newNs, newTail) =>
          match tFind newNs st.namespaces with
          | none => none
          | some newTbl =>
            if (tFind newTail newTbl).isSome then
              -- Destination command already exists.
              some (TCL_ERROR, st, [])
            else
              -- Provisionally put the command in the new namespace so the
              -- alias-loop check sees it there.  TclResetShadowedCmdRefs only
              -- invalidates lookup caches, which are not part of this model.
              let oldHPtr := c.hPtr
              let cmdNsPtr := c.nsPtr
              let cProv : Cmd := { c with hPtr := some (TablePtr.ns newNs newTail), nsPtr := newNs }
              let st1 : Interp :=
                { st with
                  namespaces := tSet newNs ((newTail, cid) :: newTbl) st.namespaces
                  commands := tSet cid cProv st.commands }
              if aliasLoopCode ≠ TCL_OK then
                -- Alias loop detected: put everything back the way it was.
                let st2 := deleteEntry st1 (TablePtr.ns newNs newTail)
                let cBack : Cmd := { cProv with hPtr := oldHPtr, nsPtr := cmdNsPtr }
                some (aliasLoopCode,
                  { st2 with commands := tSet cid cBack st2.commands }, [])
              else
                -- Success: fire rename traces holding an extra reference,
                -- remove the old entry, and bump the epochs.
                let cRef : Cmd := { cProv with refCount := cProv.refCount + 1 }
                let st2 : Interp := { st1 with commands := tSet cid cRef st1.commands }
                let evs := [Event.firedRenameTraces cid]
                let st3 :=
                  match oldHPtr with
                  | some r => deleteEntry st2 r
                  | none => st2
                let st4 : Interp :=
                  match tFind cid st3.commands with
                  | some c3 =>
                    let c4 : Cmd := { c3 with cmdEpoch := c3.cmdEpoch + 1 }
                    { st3 with commands := tSet cid c4 st3.commands }
                  | none => st3
                let evs2 := evs ++ [Event.bumpedCmdEpoch cid]
                let st5 : Interp :=
                  if c.hasCompileProc then { st4 with compileEpoch := st4.compileEpoch + 1 } else st4
                let evs3 := evs2 ++ if c.hasCompileProc then [Event.bumpedCompileEpoch] else []
                let (st6, evs4) := TclCleanupCommand st5 cid
                some (TCL_OK, st6, evs3 ++ evs4)

/-! ### Tcl_HideCommand (tclBasic.c:1177) -/

/-- Model of strstr(s, "::") != NULL: whether a name contains the
namespace-qualifier separator. -/
def hasNsQualifier (s : String) : Bool :=
  go s.data
where
  go : List Char → Bool
    | [] => false
    | [_] => false
    | a :: b :: rest => (a = ':' ∧ b = ':') ∨ go (b :: rest)

/-- Model of Tcl_HideCommand.  Tcl_FindCommand (with TCL_LEAVE_ERR_MSG and
TCL_GLOBAL_ONLY) lives in tclNamesp.c outside src/, so its result is the
`findResult` parameter.  A `none` result marks an id with no struct, which the
C pointer interface makes impossible. -/
def Tcl_HideCommand (st : Interp) (findResult : Option Nat) (hiddenCmdToken : String) :
    Option (Int × Interp) :=
  if st.interpDeleted then some (TCL_ERROR, st)
  else if hasNsQualifier hiddenCmdToken then
    -- Qualifier separators are forbidden in the token.
    some (TCL_ERROR, st)
  else
    match findResult with
    | none => some (TCL_ERROR, st)
    | some cid =>
      match tFind cid st.commands with
      | none => none
      | some c =>
        if c.nsPtr ≠ globalNsName then
          -- Only global namespace commands may be hidden.
          some (TCL_ERROR, st)
        else
          -- Initialize the hidden command table if necessary.
          let hidden := st.hiddenCmdTable.getD []
          let st1 : Interp := { st with hiddenCmdTable := some hidden }
          if (tFind hiddenCmdToken hidden).isSome then
            -- A hidden command with that token already exists.
            some (TCL_ERROR, st1)
          else
            -- Remove the command-table entry (bumping the command epoch) and
            -- link the hidden-table entry to the command.
            -- TclInvalidateNsCmdLookup only touches caches, not modelled.
            let (st2, c2) :=
              match c.hPtr with
              | some r => (deleteEntry st1 r, { c with hPtr := none, cmdEpoch := c.cmdEpoch + 1 })
              | none => (st1, c)
            let c3 : Cmd := { c2 with hPtr := some (TablePtr.hidden hiddenCmdToken) }
            let st3 : Interp :=
              { st2 with
                commands := tSet cid c3 st2.commands
                hiddenCmdTable := some ((hiddenCmdToken, cid) :: st2.hiddenCmdTable.getD []) }
            let st4 : Interp :=
              if c.hasCompileProc then { st3 with compileEpoch := st3.compileEpoch + 1 } else st3
            some (TCL_OK, st4)

/-- The state a recursive (second) delete attempt leaves behind
(tclBasic.c:2500-2515): the hash entry the command's hPtr still names is
removed and the hPtr cleared; nothing else changes. -/
def secondDeleteState (st : Interp) (cid : Nat) (c : Cmd) : Interp :=
  match c.hPtr with
  | some r =>
    let st1 := deleteEntry st r
    { st1 with commands := tSet cid { c with hPtr := none } st1.commands }
  | none => st

/-! ### The evaluator: TclEvalObjvInternal (tclBasic.c:3198)

External collaborators appear as oracle parameters: the enter/leave trace
dispatchers (tclTrace.c), the command implementations themselves, the
asynchronous-signal hooks (tclAsync.c), the resource-limit hooks, and the
native-stack headroom check TclpCheckStackSpace (platform code). -/

structure EvalOracles where
  stackSpaceOK : Bool
  checkInterpEnterTraces : List String → Interp → Int × Interp
  checkCmdEnterTraces : List String → Interp → Int × Interp
  checkCmdLeaveTraces : List String → Int → Interp → Int × Interp
  checkInterpLeaveTraces : List String → Int → Interp → Int × Interp
  invokeObjProc : Nat → List String → Interp → Int × Interp
  asyncReady : Bool
  asyncInvoke : Int → Int
  limitExceeded : Bool
  limitReady : Bool
  limitCheck : Int

/-- Model of TclInterpReady (tclBasic.c:3137): refuse evaluation in a deleted
interpreter and guard the recursion depth plus native stack headroom. -/
def TclInterpReady (O : EvalOracles) (st : Interp) : Int × Interp :=
  if st.interpDeleted then
    (TCL_ERROR, { st with result := "attempt to call eval in deleted interpreter" })
  else if ((st.numLevels : Int) > st.maxNestingDepth) ∨ ¬O.stackSpaceOK then
    (TCL_ERROR, { st with result := st.result ++ "too many nested evaluations (infinite loop?)" })
  else (TCL_OK, st)

/-- Modelled from the spec: command-name resolution.  Tcl_GetCommandFromObj and
Tcl_FindCommand live in tclObj.c / tclNamesp.c, outside src/.  Per spec section
4.1, a bare name falls back to the global namespace; the model resolves names
directly in the global namespace command table. -/
def resolveCmdName (st : Interp) (name : String) : Option Nat :=
  match tFind globalNsName st.namespaces with
  | none => none
  | some tbl => tFind name tbl

def unknownCmdName : String := "::unknown"

/-- The invocation section of TclEvalObjvInternal (tclBasic.c:3314-3377): bump
the reference count and command counter, run the implementation unless an
enter trace failed or a resource limit was exceeded, drain asynchronous
signals, poll resource limits, fire leave traces unless the command was
deleted, release the reference, and let a failed trace override the code. -/
def evalInvoke (O : EvalOracles) (st : Interp) (cid : Nat) (objv : List String)
    (traceCode : Int) : Option (Int × Interp) :=
  match tFind cid st.commands with
  | none => none
  | some c =>
    let cUp : Cmd := { c with refCount := c.refCount + 1 }
    let st1 : Interp :=
      { st with commands := tSet cid cUp st.commands, cmdCount := st.cmdCount + 1 }
    let (code1, st2) :=
      if traceCode = TCL_OK ∧ ¬O.limitExceeded then O.invokeObjProc cid objv st1
      else (TCL_OK, st1)
    let code2 := if O.asyncReady then O.asyncInvoke code1 else code1
    let code3 := if code2 = TCL_OK ∧ O.limitReady then O.limitCheck else code2
    let (tc1, st3) :=
      match tFind cid st2.commands with
      | some c2 =>
        if ¬c2.isDeletedFlag then
          let (ta, sta) :=
            if c2.hasExecTraces ∧ traceCode = TCL_OK then O.checkCmdLeaveTraces objv code3 st2
            else (traceCode, st2)
          if sta.hasInterpTraces ∧ ta = TCL_OK then O.checkInterpLeaveTraces objv code3 sta
          else (ta, sta)
        else (traceCode, st2)
      | none => (traceCode, st2)
    let (st4, _) := TclCleanupCommand st3 cid
    some ((if tc1 ≠ TCL_OK then tc1 else code3), st4)

/-- The enter-trace block of TclEvalObjvInternal (tclBasic.c:3290-3311):
holding an extra reference on the command, fire interpreter-wide enter traces
and then per-command execution enter traces (each only while the running
trace code is still TCL_OK), then drop the reference.  Returns the resulting
trace code with the state. -/
def evalEnterTraces (O : EvalOracles) (st : Interp) (cid : Nat) (objv : List String)
    (traceCode : Int) : Int × Interp :=
  match tFind cid st.commands with
  | none => (traceCode, st)
  | some c =>
    let cUp : Cmd := { c with refCount := c.refCount + 1 }
    let stA : Interp := { st with commands := tSet cid cUp st.commands }
    let (tcA, stB) :=
      if stA.hasInterpTraces ∧ traceCode = TCL_OK then O.checkInterpEnterTraces objv stA
      else (traceCode, stA)
    let hasExec := ((tFind cid stB.commands).map (fun c2 => c2.hasExecTraces)).getD false
    let (tcB, stC) :=
      if hasExec ∧ tcA = TCL_OK then O.checkCmdEnterTraces objv stB else (tcA, stB)
    match tFind cid stC.commands with
    | some c3 =>
      let c3d : Cmd := { c3 with refCount := c3.refCount - 1 }
      (tcB, { stC with commands := tSet cid c3d stC.commands })
    | none => (tcB, stC)

mutual

/-- Model of TclEvalObjvInternal.  The explicit fuel bounds the two sources of
unbounded control flow: the goto back to the reparse label and the recursive
self-call for the unknown-command fallback.  The result carries the completion
code, the final state, and the number of name-resolution passes this
invocation performed on its own word list. -/
def TclEvalObjvInternal (O : EvalOracles) (fuel : Nat) (st : Interp)
    (objv : List String) (command : Option String) : Option (Int × Interp × Nat) :=
  match fuel with
  | 0 => none
  | fuel + 1 =>
    match TclInterpReady O st with
    | (ready, st0) =>
      if ready = TCL_ERROR then some (TCL_ERROR, st0, 0)
      else if objv.length = 0 then some (TCL_OK, st0, 0)
      else evalReparse O fuel st0 objv command true TCL_OK

/-- The code from the reparseBecauseOfTraces label down (tclBasic.c:3255):
resolve the first word, fall back to the "::unknown" command when resolution
fails, fire enter traces when enabled, and restart once from resolution with
trace checking disabled if the traces changed the command's epoch. -/
def evalReparse (O : EvalOracles) (fuel : Nat) (st : Interp) (objv : List String)
    (command : Option String) (checkTraces : Bool) (traceCode : Int) :
    Option (Int × Interp × Nat) :=
  match fuel with
  | 0 => none
  | fuel + 1 =>
    match objv with
    | [] => none
    | word0 :: _ =>
      match resolveCmdName st word0 with
      | none =>
        -- No such command: prepend "::unknown" and call ourselves recursively
        -- under the same recursion-depth guard.
        match resolveCmdName st unknownCmdName with
        | none =>
          some (TCL_ERROR,
            { st with result := st.result ++ "invalid command name \"" ++ word0 ++ "\"" }, 1)
        | some _ =>
          let st1 : Interp := { st with numLevels := st.numLevels + 1 }
          match TclEvalObjvInternal O fuel st1 (unknownCmdName :: objv) command with
          | none => none
          | some (code, st2, _) =>
            some (code, { st2 with numLevels := st2.numLevels - 1 }, 1)
      | some cid =>
        if checkTraces ∧ command.isSome then
          match tFind cid st.commands with
          | none => none
          | some c =>
            let cmdEpoch := c.cmdEpoch
            match evalEnterTraces O st cid objv traceCode with
            | (tcB, stD) =>
              let epochNow :=
                ((tFind cid stD.commands).map (fun c4 => c4.cmdEpoch)).getD cmdEpoch
              if epochNow ≠ cmdEpoch then
                -- The command was modified by the traces: restart once from
                -- name resolution with trace checking disabled.
                match evalReparse O fuel stD objv command false tcB with
                | none => none
                | some (code, stE, n) => some (code, stE, n + 1)
              else
                match evalInvoke O stD cid objv tcB with
                | none => none
                | some (code, stE) => some (code, stE, 1)
        else
          match evalInvoke O st cid objv traceCode with
          | none => none
          | some (code, stE) => some (code, stE, 1)

end

/-! ### Tcl_EvalObjv result-code post-processing (tclBasic.c:3442-3460)

ProcessUnexpectedResult (tclBasic.c:4118) formats the diagnostic for an
exceptional code that reaches the topmost evaluation level. -/

def ProcessUnexpectedResult (returnCode : Int) : String :=
  if returnCode = TCL_BREAK then "invoked \"break\" outside of a loop"
  else if returnCode = TCL_CONTINUE then "invoked \"continue\" outside of a loop"
  else "command returned bad code: " ++ toString returnCode

/-- The post-processing Tcl_EvalObjv applies to the completion code after the
inner evaluation returned and numLevels was decremented.  TclUpdateReturnInfo
lives in tclProc.c, outside src/; per spec section 4.4 it converts a return
code into its encoded result value, which the model takes as the
`updateReturnInfoResult` parameter.  The returned option is the diagnostic
ProcessUnexpectedResult leaves in the interpreter result, if any. -/
def evalObjvTopLevelCode (numLevels : Nat) (allowExceptions : Bool)
    (updateReturnInfoResult : Int) (code : Int) : Int × Option String :=
  if numLevels = 0 then
    let code1 := if code = TCL_RETURN then updateReturnInfoResult else code
    if code1 ≠ TCL_OK ∧ code1 ≠ TCL_ERROR ∧ ¬allowExceptions then
      (TCL_ERROR, some (ProcessUnexpectedResult code1))
    else (code1, none)
  else (code, none)

/-! ### Tcl_EvalEx word expansion (tclBasic.c:3712-3806)

Each parsed word carries whether its token was marked TCL_TOKEN_EXPAND_WORD
and, for the external value system, the result of interpreting its
substituted value as a list (`listElems = none` models the Tcl_ListObjLength
failure for a non-list value).  Values are opaque ids. -/

structure EvalWord where
  isExpandToken : Bool
  val : Nat
  listElems : Option (List Nat)
deriving DecidableEq

/-- The sizing pass (tclBasic.c:3732-3770): objectsNeeded counts
`numElements ? numElements : 1` for a word marked for expansion and 1
otherwise; a non-list value under expansion is an error (`none`). -/
def objectsNeededLoop : List EvalWord → Option Nat
  | [] => some 0
  | w :: ws =>
    if w.isExpandToken then
      match w.listElems with
      | none => none
      | some elems =>
        (objectsNeededLoop ws).map (fun n => (if elems.length = 0 then 1 else elems.length) + n)
    else (objectsNeededLoop ws).map (fun n => 1 + n)

/-- The repacking pass (tclBasic.c:3771-3806): the source loop walks the words
from last to first, filling the destination array from its upper end with the
list elements of each expanded word (numElements of them, so none for an
empty list) or the word value itself, and finally advances objv past the
unused low slots; the resulting argument vector is the in-order
concatenation below.  When no expansion was requested the first pass already
produced exactly one object per word, which this definition also yields. -/
def buildObjvWords : List EvalWord → List Nat
  | [] => []
  | w :: ws =>
    (if w.isExpandToken then w.listElems.getD [] else [w.val]) ++ buildObjvWords ws

/-! ### Tcl_SetRecursionLimit (tclBasic.c:4874) -/

def Tcl_SetRecursionLimit (iPtr : Interp) (depth : Int) : Int × Interp :=
  let old := iPtr.maxNestingDepth
  if depth > 0 then (old, { iPtr with maxNestingDepth := depth })
  else (old, iPtr)

/-! ### Concrete states and oracles for evaluating the model on sample inputs -/

/-- A freshly registered command sitting in table `nsName` under `key` with
implementation id `objProc`. -/
def mkCmd (nsName key : String) (objProc : Nat) : Cmd :=
  { hPtr := some (TablePtr.ns nsName key)
    nsPtr := nsName
    refCount := 1
    cmdEpoch := 0
    hasCompileProc := false
    objProc := objProc
    objClientDataReal := none
    hasDeleteProc := false
    isDeletedFlag := false
    hasExecTraces := false
    importRefs := []
    traceCount := 0 }

/-- A live interpreter holding only an empty global namespace. -/
def emptyInterp : Interp :=
  { interpDeleted := false
    numLevels := 0
    maxNestingDepth := 1000
    cmdCount := 0
    compileEpoch := 0
    result := ""
    namespaces := [(globalNsName, [])]
    hiddenCmdTable := none
    commands := []
    hasInterpTraces := false }

/-- Oracles for a setting with enough native stack, no traces registered, no
pending asynchronous signals, no resource limits, and implementations that
return TCL_OK without touching the interpreter. -/
def quietOracles : EvalOracles :=
  { stackSpaceOK := true
    checkInterpEnterTraces := fun _ s => (TCL_OK, s)
    checkCmdEnterTraces := fun _ s => (TCL_OK, s)
    checkCmdLeaveTraces := fun _ _ s => (TCL_OK, s)
    checkInterpLeaveTraces := fun _ _ s => (TCL_OK, s)
    invokeObjProc := fun _ _ s => (TCL_OK, s)
    asyncReady := false
    asyncInvoke := fun c => c
    limitExceeded := false
    limitReady := false
    limitCheck := TCL_OK }

/-- Bump the command epoch of command `cid`, the way a trace callback that
renames the command would. -/
def bumpEpochOf (cid : Nat) (s : Interp) : Interp :=
  match tFind cid s.commands with
  | some c => { s with commands := tSet cid { c with cmdEpoch := c.cmdEpoch + 1 } s.commands }
  | none => s

/-- Oracles whose per-command enter traces rename command 1 out from under the
dispatch (modelled as bumping its epoch). -/
def epochBumpOracles : EvalOracles :=
  { quietOracles with checkCmdEnterTraces := fun _ s => (TCL_OK, bumpEpochOf 1 s) }

/-- Interpreter with one command "greet" (id 1) that carries execution traces,
for exercising the trace-epoch retry. -/
def tracedInterp : Interp :=
  { emptyInterp with
    namespaces := [(globalNsName, [("greet", 1)])]
    commands := [(1, { mkCmd globalNsName "greet" 7 with hasExecTraces := true })] }

/-- Interpreter with commands "cmdA" (id 1) and "cmdB" (id 2) in the global
namespace, for exercising rename collisions and undo. -/
def twoCmdInterp : Interp :=
  { emptyInterp with
    namespaces := [(globalNsName, [("cmdA", 1), ("cmdB", 2)])]
    commands := [(1, mkCmd globalNsName "cmdA" 7), (2, mkCmd globalNsName "cmdB" 8)] }

/-- Interpreter where command "orig" (id 1) has a delete hook and has been
imported into namespace "::sub" as command id 2. -/
def importInterp : Interp :=
  { emptyInterp with
    namespaces := [(globalNsName, [("orig", 1)]), ("::sub", [("orig", 2)])]
    commands :=
      [(1, { mkCmd globalNsName "orig" 7 with hasDeleteProc := true, importRefs := [2] }),
       (2, { mkCmd "::sub" "orig" 9 with objClientDataReal := some 1 })] }

/-- Interpreter where command "orig" (id 1) was made by Tcl_CreateCommand (its
objProc is the TclInvokeStringCommand wrapper) and has a delete hook. -/
def stringCmdInterp : Interp :=
  { emptyInterp with
    namespaces := [(globalNsName, [("orig", 1)])]
    commands :=
      [(1, { mkCmd globalNsName "orig" tclInvokeStringCommandId with hasDeleteProc := true })] }

/-- Interpreter holding command "dying" (id 1) whose deletion is already in
progress: the CMD_IS_DELETED flag is set while the hash entry still exists,
exactly the situation a recursive delete attempt sees. -/
def midDeleteInterp : Interp :=
  { emptyInterp with
    namespaces := [(globalNsName, [("dying", 1)])]
    commands :=
      [(1, { mkCmd globalNsName "dying" 7 with
             isDeletedFlag := true, hasDeleteProc := true, traceCount := 1 })] }

/-! ## Lemmas about association-list tables -/

theorem tErase_cons_self {α β : Type} [DecidableEq α] (k : α) (v : β) (l : List (α × β)) :
    tErase k ((k, v) :: l) = tErase k l := by
  simp [tErase]

theorem tErase_of_find_none {α β : Type} [DecidableEq α] {k : α} {l : List (α × β)}
    (h : tFind k l = none) : tErase k l = l := by
  induction l with
  | nil => rfl
  | cons p rest ih =>
    obtain ⟨a, b⟩ := p
    by_cases hak : a = k
    · subst hak
      simp [tFind] at h
    · simp [tFind, hak] at h
      simp [tErase, hak, ih h]

theorem tFind_tErase_self {α β : Type} [DecidableEq α] (k : α) (l : List (α × β)) :
    tFind k (tErase k l) = none := by
  induction l with
  | nil => rfl
  | cons p rest ih =>
    obtain ⟨a, b⟩ := p
    by_cases hak : a = k
    · simp [tErase, hak, ih]
    · simp [tErase, tFind, hak, ih]

theorem tFind_tErase_ne {α β : Type} [DecidableEq α] {k2 k : α} (l : List (α × β))
    (h : k2 ≠ k) : tFind k2 (tErase k l) = tFind k2 l := by
  induction l with
  | nil => rfl
  | cons p rest ih =>
    obtain ⟨a, b⟩ := p
    by_cases hak : a = k
    · subst hak
      simp [tErase, tFind, Ne.symm h, ih]
    · by_cases hak2 : a = k2 <;> simp [tErase, tFind, hak, hak2, h, ih]

theorem tSet_of_not_mem {α β : Type} [DecidableEq α] {k : α} (v : β) {l : List (α × β)}
    (h : k ∉ tKeys l) : tSet k v l = l := by
  induction l with
  | nil => rfl
  | cons p rest ih =>
    obtain ⟨a, b⟩ := p
    have hcons : k ∉ a :: tKeys rest := h
    have hak : a ≠ k := by
      rintro rfl
      exact hcons (List.mem_cons_self a (tKeys rest))
    have htail : k ∉ tKeys rest := fun hm => hcons (List.mem_cons_of_mem a hm)
    simp [tSet, hak, ih htail]

theorem tSet_self {α β : Type} [DecidableEq α] {k : α} {v : β} {l : List (α × β)}
    (hnd : (tKeys l).Nodup) (h : tFind k l = some v) : tSet k v l = l := by
  induction l with
  | nil => rfl
  | cons p rest ih =>
    obtain ⟨a, b⟩ := p
    have hnd2 : a ∉ tKeys rest ∧ (tKeys rest).Nodup := List.nodup_cons.mp hnd
    by_cases hak : a = k
    · subst hak
      simp [tFind] at h
      subst h
      simp [tSet, tSet_of_not_mem b hnd2.1]
    · simp only [tFind, if_neg hak] at h
      simp [tSet, hak, ih hnd2.2 h]

theorem tSet_tSet {α β : Type} [DecidableEq α] (k : α) (a b : β) (l : List (α × β)) :
    tSet k a (tSet k b l) = tSet k a l := by
  induction l with
  | nil => rfl
  | cons p rest ih =>
    obtain ⟨x, y⟩ := p
    by_cases hxk : x = k <;> simp [tSet, hxk, ih]

theorem tFind_tSet {α β : Type} [DecidableEq α] {k : α} (v : β) {l : List (α × β)}
    (h : (tFind k l).isSome) : tFind k (tSet k v l) = some v := by
  induction l with
  | nil => simp [tFind] at h
  | cons p rest ih =>
    obtain ⟨a, b⟩ := p
    by_cases hak : a = k
    · simp [tSet, tFind, hak]
    · simp [tFind, hak] at h
      simp [tSet, tFind, hak, ih h]

theorem tFind_tSet_ne {α β : Type} [DecidableEq α] {k2 k : α} (v : β) (l : List (α × β))
    (h : k2 ≠ k) : tFind k2 (tSet k v l) = tFind k2 l := by
  induction l with
  | nil => rfl
  | cons p rest ih =>
    obtain ⟨a, b⟩ := p
    by_cases hak : a = k
    · subst hak
      simp [tSet, tFind, Ne.symm h, ih]
    · by_cases hak2 : a = k2 <;> simp [tSet, tFind, hak, hak2, h, ih]

theorem tKeys_tSet {α β : Type} [DecidableEq α] (k : α) (v : β) (l : List (α × β)) :
    tKeys (tSet k v l) = tKeys l := by
  induction l with
  | nil => rfl
  | cons p rest ih =>
    obtain ⟨a, b⟩ := p
    by_cases hak : a = k <;> simp [tSet, tKeys, hak] <;> simpa [tKeys] using ih

/-! ## Claim C10 -/

/-- C10: Tcl_SetRecursionLimit always returns the previously configured
maximum nesting depth, and it updates the interpreter's limit only when the
requested depth is strictly positive: for every depth less than or equal to
zero it leaves the recursion limit (indeed the whole interpreter) unchanged. -/
theorem C10_setRecursionLimit (iPtr : Interp) (depth : Int) :
    (Tcl_SetRecursionLimit iPtr depth).1 = iPtr.maxNestingDepth ∧
    (depth ≤ 0 → (Tcl_SetRecursionLimit iPtr depth).2 = iPtr) ∧
    (0 < depth →
      (Tcl_SetRecursionLimit iPtr depth).2 = { iPtr with maxNestingDepth := depth }) := by
  refine ⟨?_, ?_, ?_⟩
  · by_cases h : depth > 0 <;> simp [Tcl_SetRecursionLimit, h]
  · intro h
    have h2 : ¬depth > 0 := by omega
    simp [Tcl_SetRecursionLimit, h2]
  · intro h
    simp [Tcl_SetRecursionLimit, h]

/-- Witness for C10 at a concrete non-positive depth. -/
theorem C10_setRecursionLimit_witness :
    (Tcl_SetRecursionLimit emptyInterp (-5)).2 = emptyInterp :=
  (C10_setRecursionLimit emptyInterp (-5)).2.1 (by decide)

/-! ## Claim C7 -/

/-- C7 counterexample: the claim says that when the caller opted in to raw
exceptional codes such codes propagate unchanged, but at the outermost level a
TCL_RETURN code is converted by TclUpdateReturnInfo regardless of the
allow-exceptions flag: with encoded result TCL_OK the returned code is not
TCL_RETURN. -/
theorem C7_counterexample :
    (evalObjvTopLevelCode 0 true TCL_OK TCL_RETURN).1 ≠ TCL_RETURN ∧
    (evalObjvTopLevelCode 0 true TCL_OK TCL_RETURN).1 = TCL_OK := by
  constructor <;> decide

/-- C7 (amended): when an evaluation returns to the outermost nesting level
with the allow-exceptions flag unset, a return code is converted into its
encoded result (and the converted code is then itself subject to rejection),
break and continue become the respective "invoked ... outside of a loop"
errors, and any other non-normal non-error code becomes the
"command returned bad code: n" error; at nested levels all codes propagate
unchanged, and with the opt-in flag set break/continue/other codes propagate
unchanged while a return code is still converted at the outermost level. -/
theorem C7_topLevelCodes (lv : Nat) (allow : Bool) (u code : Int) :
    (lv = 0 → allow = false → code = TCL_BREAK →
      evalObjvTopLevelCode lv allow u code
        = (TCL_ERROR, some "invoked \"break\" outside of a loop")) ∧
    (lv = 0 → allow = false → code = TCL_CONTINUE →
      evalObjvTopLevelCode lv allow u code
        = (TCL_ERROR, some "invoked \"continue\" outside of a loop")) ∧
    (lv = 0 → allow = false → code ≠ TCL_OK → code ≠ TCL_ERROR → code ≠ TCL_RETURN →
      code ≠ TCL_BREAK → code ≠ TCL_CONTINUE →
      evalObjvTopLevelCode lv allow u code
        = (TCL_ERROR, some ("command returned bad code: " ++ toString code))) ∧
    (lv = 0 → code = TCL_RETURN →
      evalObjvTopLevelCode lv allow u code
        = (if u ≠ TCL_OK ∧ u ≠ TCL_ERROR ∧ allow = false then
            (TCL_ERROR, some (ProcessUnexpectedResult u))
          else (u, none))) ∧
    (lv ≠ 0 → evalObjvTopLevelCode lv allow u code = (code, none)) ∧
    (lv = 0 → allow = true → code ≠ TCL_RETURN →
      evalObjvTopLevelCode lv allow u code = (code, none)) := by
  refine ⟨?_, ?_, ?_, ?_, ?_, ?_⟩
  · rintro rfl rfl rfl
    simp [evalObjvTopLevelCode, ProcessUnexpectedResult, TCL_BREAK, TCL_RETURN, TCL_OK,
      TCL_ERROR, TCL_CONTINUE]
  · rintro rfl rfl rfl
    simp [evalObjvTopLevelCode, ProcessUnexpectedResult, TCL_BREAK, TCL_RETURN, TCL_OK,
      TCL_ERROR, TCL_CONTINUE]
  · rintro rfl rfl h1 h2 h3 h4 h5
    simp [evalObjvTopLevelCode, ProcessUnexpectedResult, h1, h2, h3, h4, h5]
  · rintro rfl rfl
    by_cases hu1 : u = TCL_OK
    · simp [evalObjvTopLevelCode, hu1, TCL_RETURN, TCL_OK]
    · by_cases hu2 : u = TCL_ERROR
      · simp [evalObjvTopLevelCode, hu1, hu2, TCL_RETURN, TCL_OK, TCL_ERROR]
      · cases allow <;>
          simp [evalObjvTopLevelCode, hu1, hu2, TCL_RETURN, TCL_OK, TCL_ERROR]
  · intro h
    simp [evalObjvTopLevelCode, h]
  · rintro rfl rfl h
    have h2 : ¬code = 2 := by simpa [TCL_RETURN] using h
    by_cases h1 : code = TCL_OK
    · simp [evalObjvTopLevelCode, h1, TCL_RETURN, TCL_OK]
    · simp [evalObjvTopLevelCode, h1, h2, TCL_RETURN, TCL_OK]

/-- Witness for C7 at concrete inputs: a break code at the outermost level
without the opt-in flag becomes the documented error. -/
theorem C7_topLevelCodes_witness :
    evalObjvTopLevelCode 0 false TCL_OK TCL_BREAK
      = (TCL_ERROR, some "invoked \"break\" outside of a loop") :=
  (C7_topLevelCodes 0 false TCL_OK TCL_BREAK).1 rfl rfl rfl

/-! ## Claim C2 -/

/-- C2 counterexample: a word marked for expansion whose substituted value is
the valid empty list contributes zero argument slots to the invoked command's
argument vector, not one; the single reserved slot appears only in the
allocation count objectsNeeded. -/
theorem C2_counterexample :
    (buildObjvWords [{ isExpandToken := true, val := 7, listElems := some [] }]).length = 0 ∧
    (0 : Nat) ≠ 1 ∧
    objectsNeededLoop [{ isExpandToken := true, val := 7, listElems := some [] }] = some 1 := by
  refine ⟨?_, ?_, ?_⟩ <;> decide

/-- C2 (amended): for every word sequence whose expansion-marked words carry
valid lists, an expansion-marked word with n elements contributes exactly n
argument slots to the invoked command's argument vector — n slots when n > 0
and zero slots when the list is empty — while the allocation-sizing count
objectsNeeded reserves max 1 n slots for it; every unmarked word contributes
exactly one slot to both. -/
theorem C2_expansionSlots (ws : List EvalWord)
    (h : ∀ w ∈ ws, w.isExpandToken = true → (w.listElems).isSome) :
    (buildObjvWords ws).length
      = (ws.map (fun w => if w.isExpandToken then (w.listElems.getD []).length else 1)).sum ∧
    objectsNeededLoop ws
      = some ((ws.map (fun w =>
          if w.isExpandToken then max 1 (w.listElems.getD []).length else 1)).sum) := by
  induction ws with
  | nil => exact ⟨rfl, rfl⟩
  | cons w ws ih =>
    have hw := h w (List.mem_cons_self w ws)
    have htail := ih (fun x hx hex => h x (List.mem_cons_of_mem w hx) hex)
    constructor
    · by_cases hex : w.isExpandToken
      · simp [buildObjvWords, hex, htail.1]
      · have hexf : w.isExpandToken = false := by simpa using hex
        simp [buildObjvWords, hexf, htail.1]
        omega
    · by_cases hex : w.isExpandToken
      · obtain ⟨elems, helems⟩ := Option.isSome_iff_exists.mp (hw hex)
        have hm : (if elems = [] then 1 else elems.length) = max 1 elems.length := by
          cases elems with
          | nil => simp
          | cons a t =>
            rw [if_neg (List.cons_ne_nil a t), Nat.max_eq_right]
            simp
        simp [objectsNeededLoop, hex, helems, htail.2, hm]
      · have hexf : w.isExpandToken = false := by simpa using hex
        simp [objectsNeededLoop, hexf, htail.2]

/-! ## Claim C9 -/

/-- C9: for every live interpreter within its recursion limit (and with
sufficient native stack), dispatching a zero-length word vector returns
TCL_OK immediately: the state (including the command counter) is returned
untouched for every oracle, and zero name-resolution passes are made. -/
theorem C9_zeroWords (O : EvalOracles) (fuel : Nat) (st : Interp) (command : Option String)
    (h1 : st.interpDeleted = false)
    (h2 : (st.numLevels : Int) ≤ st.maxNestingDepth)
    (h3 : O.stackSpaceOK = true) :
    TclEvalObjvInternal O (fuel + 1) st [] command = some (TCL_OK, st, 0) := by
  have hready : TclInterpReady O st = (TCL_OK, st) := by
    unfold TclInterpReady
    rw [if_neg (by simp [h1]), if_neg (by simp [h3]; omega)]
  simp [TclEvalObjvInternal, hready, TCL_OK, TCL_ERROR]

/-- Witness for C9: the empty word vector in the sample interpreter. -/
theorem C9_zeroWords_witness :
    TclEvalObjvInternal quietOracles 1 emptyInterp [] none = some (TCL_OK, emptyInterp, 0) :=
  C9_zeroWords quietOracles 0 emptyInterp none rfl (by decide) rfl

/-! ## Claim C5 -/

/-- C5: when the first word resolves to no command, the evaluator synthesizes
a fallback invocation by prepending "::unknown" to the original word list and
recursing at an incremented nesting level (hence under the same
recursion-depth guard); if "::unknown" does not resolve either, the result is
TCL_ERROR with exactly the message: invalid command name "<first word>"
appended to the interpreter result. -/
theorem C5_unknownFallback (O : EvalOracles) (fuel : Nat) (st : Interp)
    (word0 : String) (rest : List String) (command : Option String)
    (h1 : st.interpDeleted = false)
    (h2 : (st.numLevels : Int) ≤ st.maxNestingDepth)
    (h3 : O.stackSpaceOK = true)
    (h4 : resolveCmdName st word0 = none) :
    (resolveCmdName st unknownCmdName = none →
      TclEvalObjvInternal O (fuel + 1 + 1) st (word0 :: rest) command
        = some (TCL_ERROR,
            { st with result := st.result ++ "invalid command name \"" ++ word0 ++ "\"" }, 1)) ∧
    (∀ cid, resolveCmdName st unknownCmdName = some cid →
      TclEvalObjvInternal O (fuel + 1 + 1) st (word0 :: rest) command
        = match TclEvalObjvInternal O fuel { st with numLevels := st.numLevels + 1 }
            (unknownCmdName :: word0 :: rest) command with
          | none => none
          | some (code, st2, _) => some (code, { st2 with numLevels := st2.numLevels - 1 }, 1)) := by
  have hready : TclInterpReady O st = (TCL_OK, st) := by
    unfold TclInterpReady
    rw [if_neg (by simp [h1]), if_neg (by simp [h3]; omega)]
  constructor
  · intro hu
    simp [TclEvalObjvInternal, evalReparse, hready, h4, hu, TCL_OK, TCL_ERROR]
  · intro cid hcid
    simp [TclEvalObjvInternal, evalReparse, hready, h4, hcid, TCL_OK, TCL_ERROR]

/-- Witness for C5, realising the spec scenario: evaluating the words of
"nosuchcmd 1 2" with no "::unknown" handler registered yields exactly the
error invalid command name "nosuchcmd". -/
theorem C5_unknownFallback_witness :
    TclEvalObjvInternal quietOracles 2 emptyInterp ["nosuchcmd", "1", "2"]
        (some "nosuchcmd 1 2")
      = some (TCL_ERROR,
          { emptyInterp with
            result := emptyInterp.result ++ "invalid command name \"" ++ "nosuchcmd" ++ "\"" },
          1) :=
  (C5_unknownFallback quietOracles 0 emptyInterp "nosuchcmd" ["1", "2"]
      (some "nosuchcmd 1 2") rfl (by decide) rfl rfl).1 rfl

/-! ## Claim C8 -/

/-- With trace checking disabled (the state after the one permitted restart),
the reparse code performs exactly one name-resolution pass on its own word
list: the goto branch is unreachable. -/
theorem evalReparse_false_one_pass (O : EvalOracles) (fuel : Nat) (st : Interp)
    (objv : List String) (command : Option String) (tc : Int)
    (res : Int × Interp × Nat)
    (h : evalReparse O fuel st objv command false tc = some res) : res.2.2 ≤ 1 := by
  cases fuel with
  | zero => simp [evalReparse] at h
  | succ f =>
    rw [evalReparse.eq_def] at h
    cases objv with
    | nil => simp at h
    | cons word0 rest =>
      simp only [] at h
      cases hres : resolveCmdName st word0 with
      | none =>
        rw [hres] at h
        simp only [] at h
        cases hu : resolveCmdName st unknownCmdName with
        | none =>
          rw [hu] at h
          simp only [] at h
          injection h with h2
          subst h2
          simp
        | some cid =>
          rw [hu] at h
          simp only [] at h
          cases hin : TclEvalObjvInternal O f { st with numLevels := st.numLevels + 1 }
              (unknownCmdName :: word0 :: rest) command with
          | none => rw [hin] at h; simp at h
          | some r =>
            obtain ⟨c2, s2, n2⟩ := r
            rw [hin] at h
            simp only [] at h
            injection h with h2
            subst h2
            simp
      | some cid =>
        rw [hres] at h
        simp only [] at h
        rw [if_neg (by simp)] at h
        cases hin : evalInvoke O st cid (word0 :: rest) tc with
        | none => rw [hin] at h; simp at h
        | some r =>
          obtain ⟨c2, s2⟩ := r
          rw [hin] at h
          simp only [] at h
          injection h with h2
          subst h2
          simp

/-- From a fresh dispatch (trace checking enabled) at most two name-resolution
passes happen: a restart forced by an epoch change continues with trace
checking disabled, which adds exactly one more pass. -/
theorem evalReparse_true_two_passes (O : EvalOracles) (fuel : Nat) (st : Interp)
    (objv : List String) (command : Option String) (tc : Int)
    (res : Int × Interp × Nat)
    (h : evalReparse O fuel st objv command true tc = some res) : res.2.2 ≤ 2 := by
  cases fuel with
  | zero => simp [evalReparse] at h
  | succ f =>
    rw [evalReparse.eq_def] at h
    cases objv with
    | nil => simp at h
    | cons word0 rest =>
      simp only [] at h
      cases hres : resolveCmdName st word0 with
      | none =>
        rw [hres] at h
        simp only [] at h
        cases hu : resolveCmdName st unknownCmdName with
        | none =>
          rw [hu] at h
          simp only [] at h
          injection h with h2
          subst h2
          simp
        | some cid =>
          rw [hu] at h
          simp only [] at h
          cases hin : TclEvalObjvInternal O f { st with numLevels := st.numLevels + 1 }
              (unknownCmdName :: word0 :: rest) command with
          | none => rw [hin] at h; simp at h
          | some r =>
            obtain ⟨c2, s2, n2⟩ := r
            rw [hin] at h
            simp only [] at h
            injection h with h2
            subst h2
            simp
      | some cid =>
        rw [hres] at h
        simp only [] at h
        by_cases hcmd : command.isSome
        · rw [if_pos ⟨trivial, hcmd⟩] at h
          cases hc : tFind cid st.commands with
          | none => rw [hc] at h; simp at h
          | some c =>
            rw [hc] at h
            simp only [] at h
            rcases hT : evalEnterTraces O st cid (word0 :: rest) tc with ⟨tcB, stD⟩
            rw [hT] at h
            simp only [] at h
            by_cases hep :
                ((tFind cid stD.commands).map (fun c4 => c4.cmdEpoch)).getD c.cmdEpoch
                  ≠ c.cmdEpoch
            · rw [if_pos hep] at h
              cases hgoto : evalReparse O f stD (word0 :: rest) command false tcB with
              | none => rw [hgoto] at h; simp at h
              | some r =>
                obtain ⟨cg, sg, ng⟩ := r
                have hb := evalReparse_false_one_pass O f stD (word0 :: rest) command tcB
                  (cg, sg, ng) hgoto
                rw [hgoto] at h
                simp only [] at h
                injection h with h2
                subst h2
                simp at hb ⊢
                omega
            · rw [if_neg hep] at h
              cases hin : evalInvoke O stD cid (word0 :: rest) tcB with
              | none => rw [hin] at h; simp at h
              | some r =>
                obtain ⟨c2, s2⟩ := r
                rw [hin] at h
                simp only [] at h
                injection h with h2
                subst h2
                simp
        · rw [if_neg (by simp [hcmd])] at h
          cases hin : evalInvoke O st cid (word0 :: rest) tc with
          | none => rw [hin] at h; simp at h
          | some r =>
            obtain ⟨c2, s2⟩ := r
            rw [hin] at h
            simp only [] at h
            injection h with h2
            subst h2
            simp

/-- C8: for every invocation, whatever the trace callbacks do, at most two
name-resolution passes occur: if the first round of enter traces changes the
target command's epoch the dispatch restarts exactly once from name
resolution with trace checking disabled on the retry. -/
theorem C8_atMostTwoPasses (O : EvalOracles) (fuel : Nat) (st : Interp)
    (objv : List String) (command : Option String)
    (h : (TclEvalObjvInternal O fuel st objv command).isSome = true) :
    ((TclEvalObjvInternal O fuel st objv command).getD (TCL_OK, st, 0)).2.2 ≤ 2 := by
  obtain ⟨res, hres⟩ := Option.isSome_iff_exists.mp h
  rw [hres]
  simp only [Option.getD_some]
  cases fuel with
  | zero => simp [TclEvalObjvInternal] at hres
  | succ f =>
    rw [TclEvalObjvInternal.eq_def] at hres
    simp only [] at hres
    rcases hR : TclInterpReady O st with ⟨ready, st0⟩
    rw [hR] at hres
    simp only [] at hres
    by_cases hrdy : ready = TCL_ERROR
    · rw [if_pos hrdy] at hres
      injection hres with h2
      subst h2
      simp
    · rw [if_neg hrdy] at hres
      by_cases hlen : objv.length = 0
      · rw [if_pos hlen] at hres
        injection hres with h2
        subst h2
        simp
      · rw [if_neg hlen] at hres
        exact evalReparse_true_two_passes O f st0 objv command TCL_OK res hres

/-- Witness for C8: a dispatch whose enter trace renames the target (bumping
its epoch), forcing the single retry; the call succeeds, so the bound applies
to it. -/
theorem C8_atMostTwoPasses_witness :
    ((TclEvalObjvInternal epochBumpOracles 3 tracedInterp ["greet"]
        (some "greet")).getD (TCL_OK, tracedInterp, 0)).2.2 ≤ 2 :=
  C8_atMostTwoPasses epochBumpOracles 3 tracedInterp ["greet"] (some "greet") rfl

/-! ## Claim C4 -/

/-- C4: calling Tcl_DeleteCommandFromToken on a command whose CMD_IS_DELETED
flag is already set returns 0 after only removing the command's still-present
hash-table entry: no event fires (no delete traces, no delete hook, no free),
the compile epoch is untouched, the command keeps its fields (in particular
its command epoch) apart from the cleared entry pointer, every other command
is untouched, and when the entry was already gone the state is returned
exactly as it was. -/
theorem C4_secondDelete (fuel : Nat) (st : Interp) (cid : Nat) (c : Cmd)
    (hc : tFind cid st.commands = some c)
    (hdel : c.isDeletedFlag = true) :
    Tcl_DeleteCommandFromToken (fuel + 1) st cid
      = some (0, secondDeleteState st cid c, []) ∧
    (secondDeleteState st cid c).compileEpoch = st.compileEpoch ∧
    (secondDeleteState st cid c).cmdCount = st.cmdCount ∧
    tFind cid (secondDeleteState st cid c).commands = some { c with hPtr := none } ∧
    (∀ j, j ≠ cid →
      tFind j (secondDeleteState st cid c).commands = tFind j st.commands) ∧
    (c.hPtr = none → secondDeleteState st cid c = st) := by
  refine ⟨?_, ?_, ?_, ?_, ?_, ?_⟩
  · rw [Tcl_DeleteCommandFromToken.eq_def]
    simp only []
    rw [hc]
    simp only [hdel]
    cases hp : c.hPtr with
    | none => simp [secondDeleteState, hp, hdel]
    | some r => simp [secondDeleteState, hp, hdel]
  · cases hp : c.hPtr with
    | none => simp [secondDeleteState, hp]
    | some r => cases r <;> simp [secondDeleteState, hp, deleteEntry]
  · cases hp : c.hPtr with
    | none => simp [secondDeleteState, hp]
    | some r => cases r <;> simp [secondDeleteState, hp, deleteEntry]
  · cases hp : c.hPtr with
    | none =>
      have hcc : ({ c with hPtr := none } : Cmd) = c := by
        cases c
        simp only [Cmd.mk.injEq] at hp ⊢
        simp [hp]
      simp only [secondDeleteState, hp]
      rw [hcc]
      exact hc
    | some r =>
      have hcomm : (deleteEntry st r).commands = st.commands := by
        cases r <;> simp [deleteEntry]
      simp only [secondDeleteState, hp]
      rw [hcomm]
      exact tFind_tSet _ (by simp [hc])
  · intro j hj
    cases hp : c.hPtr with
    | none => simp [secondDeleteState, hp]
    | some r =>
      have hcomm : (deleteEntry st r).commands = st.commands := by
        cases r <;> simp [deleteEntry]
      simp only [secondDeleteState, hp]
      rw [hcomm]
      exact tFind_tSet_ne _ _ hj
  · intro hp
    simp [secondDeleteState, hp]

/-- Witness for C4: the command "dying" of the sample interpreter, which
carries a delete hook and a delete trace that must not fire again. -/
theorem C4_secondDelete_witness :
    Tcl_DeleteCommandFromToken 1 midDeleteInterp 1
      = some (0, secondDeleteState midDeleteInterp 1
          ({ mkCmd globalNsName "dying" 7 with
             isDeletedFlag := true, hasDeleteProc := true, traceCount := 1 }), []) :=
  (C4_secondDelete 0 midDeleteInterp 1
    ({ mkCmd globalNsName "dying" 7 with
       isDeletedFlag := true, hasDeleteProc := true, traceCount := 1 }) rfl rfl).1

/-! ## Claim C6 -/

theorem tKeys_tErase_subset {α β : Type} [DecidableEq α] {k2 k : α} {l : List (α × β)}
    (h : k2 ∈ tKeys (tErase k l)) : k2 ∈ tKeys l := by
  induction l with
  | nil => simpa [tErase] using h
  | cons p rest ih =>
    obtain ⟨a, b⟩ := p
    by_cases hak : a = k
    · simp only [tErase, if_pos hak] at h
      exact List.mem_cons_of_mem a (ih h)
    · simp only [tErase, if_neg hak] at h
      rcases List.mem_cons.mp h with h1 | h1
      · exact h1 ▸ List.mem_cons_self a (tKeys rest)
      · exact List.mem_cons_of_mem a (ih h1)

/-- C6: Tcl_HideCommand succeeds only when the token is free of the
namespace-qualifier separator, the resolved command is directly owned by the
global namespace, and no hidden entry under the token exists yet; every
violation returns TCL_ERROR before any relocation (namespace tables, commands
and hidden-table bindings all unchanged); and hiding preserves the invariant
that no stored hidden-token name contains the qualifier separator. -/
theorem C6_hideCommand (st : Interp) (find : Option Nat) (token : String)
    (code : Int) (st2 : Interp)
    (h : Tcl_HideCommand st find token = some (code, st2)) :
    (code = TCL_OK →
      hasNsQualifier token = false ∧
      (∃ cid c, find = some cid ∧ tFind cid st.commands = some c ∧
        c.nsPtr = globalNsName) ∧
      tFind token (st.hiddenCmdTable.getD []) = none) ∧
    (code = TCL_ERROR →
      st2.namespaces = st.namespaces ∧ st2.commands = st.commands ∧
      st2.hiddenCmdTable.getD [] = st.hiddenCmdTable.getD []) ∧
    ((∀ k ∈ tKeys (st.hiddenCmdTable.getD []), hasNsQualifier k = false) →
      ∀ k2 ∈ tKeys (st2.hiddenCmdTable.getD []), hasNsQualifier k2 = false) := by
  rw [Tcl_HideCommand.eq_def] at h
  by_cases h1 : st.interpDeleted = true
  · rw [if_pos h1] at h
    simp only [Option.some.injEq, Prod.mk.injEq] at h
    obtain ⟨rfl, rfl⟩ := h
    exact ⟨fun hx => absurd hx (by decide), fun _ => ⟨rfl, rfl, rfl⟩, fun hinv => hinv⟩
  · rw [if_neg h1] at h
    by_cases h2 : hasNsQualifier token = true
    · rw [if_pos (by simp [h2])] at h
      simp only [Option.some.injEq, Prod.mk.injEq] at h
      obtain ⟨rfl, rfl⟩ := h
      exact ⟨fun hx => absurd hx (by decide), fun _ => ⟨rfl, rfl, rfl⟩, fun hinv => hinv⟩
    · rw [if_neg (by simp [h2])] at h
      cases hf : find with
      | none =>
        rw [hf] at h
        simp only [Option.some.injEq, Prod.mk.injEq] at h
        obtain ⟨rfl, rfl⟩ := h
        exact ⟨fun hx => absurd hx (by decide), fun _ => ⟨rfl, rfl, rfl⟩, fun hinv => hinv⟩
      | some cid =>
        rw [hf] at h
        simp only [] at h
        cases hc : tFind cid st.commands with
        | none => rw [hc] at h; simp at h
        | some c =>
          rw [hc] at h
          simp only [] at h
          by_cases h3 : c.nsPtr = globalNsName
          · rw [if_neg (by simp [h3])] at h
            by_cases h4 : (tFind token (st.hiddenCmdTable.getD [])).isSome
            · rw [if_pos h4] at h
              simp only [Option.some.injEq, Prod.mk.injEq] at h
              obtain ⟨rfl, rfl⟩ := h
              refine ⟨fun hx => absurd hx (by decide), fun _ => ⟨rfl, rfl, rfl⟩,
                fun hinv => hinv⟩
            · rw [if_neg h4] at h
              have hnq : hasNsQualifier token = false := by
                simpa using h2
              cases hp : c.hPtr with
              | none =>
                rw [hp] at h
                simp only [Option.some.injEq, Prod.mk.injEq] at h
                obtain ⟨rfl, rfl⟩ := h
                refine ⟨?_, ?_, ?_⟩
                · intro _
                  exact ⟨hnq, ⟨cid, c, rfl, hc, h3⟩,
                    Option.not_isSome_iff_eq_none.mp h4⟩
                · intro hx
                  exact absurd hx (by decide)
                · intro hinv k2 hk2
                  have hk2b : k2 ∈ token :: tKeys (st.hiddenCmdTable.getD []) := by
                    cases hcp : c.hasCompileProc <;> simpa [hcp, tKeys] using hk2
                  rcases List.mem_cons.mp hk2b with h5 | h5
                  · exact h5 ▸ hnq
                  · exact hinv k2 h5
              | some r =>
                rw [hp] at h
                simp only [Option.some.injEq, Prod.mk.injEq] at h
                obtain ⟨rfl, rfl⟩ := h
                refine ⟨?_, ?_, ?_⟩
                · intro _
                  exact ⟨hnq, ⟨cid, c, rfl, hc, h3⟩,
                    Option.not_isSome_iff_eq_none.mp h4⟩
                · intro hx
                  exact absurd hx (by decide)
                · intro hinv k2 hk2
                  have hk2b : k2 ∈ token ::
                      tKeys ((deleteEntry { st with
                        hiddenCmdTable := some (st.hiddenCmdTable.getD []) }
                          r).hiddenCmdTable.getD []) := by
                    cases hcp : c.hasCompileProc <;>
                      simpa [hcp, tKeys] using hk2
                  rcases List.mem_cons.mp hk2b with h5 | h5
                  · exact h5 ▸ hnq
                  · cases r with
                    | ns n k =>
                      simp only [deleteEntry] at h5
                      exact hinv k2 h5
                    | hidden k =>
                      simp only [deleteEntry, Option.map_some, Option.getD_some] at h5
                      exact hinv k2 (tKeys_tErase_subset h5)
          · rw [if_pos (by simp [h3])] at h
            simp only [Option.some.injEq, Prod.mk.injEq] at h
            obtain ⟨rfl, rfl⟩ := h
            exact ⟨fun hx => absurd hx (by decide), fun _ => ⟨rfl, rfl, rfl⟩, fun hinv => hinv⟩

/-! ## Claim C1 -/

/-- C1: with a non-empty destination name, TclRenameCommand fails and leaves
the interpreter exactly as it was — both when the destination tail already
exists in the destination namespace's command table (TCL_ERROR before any
mutation) and when the provisional move is rejected by alias-loop detection
(the provisional table entry and the command's hPtr/nsPtr fields are rolled
back, restoring commands, tables, command epochs and the compile epoch).
The whole-state equality covers both commands, their table entries, the
source and destination command tables, every command epoch, and the compile
epoch. -/
theorem C1_renameFailure (fuel : Nat) (st : Interp) (cid : Nat) (c : Cmd)
    (newName : Option String) (newNs newTail : String) (newTbl : List (String × Nat))
    (aliasLoopCode : Int)
    (hc : tFind cid st.commands = some c)
    (hnd : (tKeys st.commands).Nodup)
    (hndNs : (tKeys st.namespaces).Nodup)
    (hNs : tFind newNs st.namespaces = some newTbl)
    (hne : ¬(newName = none ∨ newName = some "")) :
    ((tFind newTail newTbl).isSome →
      TclRenameCommand fuel st (some cid) newName (some (newNs, newTail)) aliasLoopCode
        = some (TCL_ERROR, st, [])) ∧
    (tFind newTail newTbl = none → aliasLoopCode ≠ TCL_OK →
      TclRenameCommand fuel st (some cid) newName (some (newNs, newTail)) aliasLoopCode
        = some (aliasLoopCode, st, [])) := by
  constructor
  · intro hexists
    simp [TclRenameCommand.eq_def, hc, hne, hNs, hexists]
  · intro hfree halias
    simp only [TclRenameCommand.eq_def, hc, hne, hNs, hfree]
    rw [if_neg not_false, if_neg (by simp), if_pos halias]
    simp only [deleteEntry, nsTable, Option.some.injEq, Prod.mk.injEq,
      eq_self_iff_true, true_and, and_true]
    rw [tFind_tSet (l := st.namespaces) ((newTail, cid) :: newTbl) (by simp [hNs])]
    simp only [Option.getD_some]
    rw [tErase_cons_self, tErase_of_find_none hfree, tSet_tSet, tSet_self hndNs hNs,
      tSet_tSet, tSet_self hnd hc]

/-- Witness for C1: renaming "cmdA" onto the existing "cmdB" in the sample
interpreter fails and returns the state unchanged. -/
theorem C1_renameFailure_witness :
    TclRenameCommand 1 twoCmdInterp (some 1) (some "cmdB") (some (globalNsName, "cmdB"))
        TCL_OK
      = some (TCL_ERROR, twoCmdInterp, []) :=
  (C1_renameFailure 1 twoCmdInterp 1 (mkCmd globalNsName "cmdA" 7) (some "cmdB")
      globalNsName "cmdB" [("cmdA", 1), ("cmdB", 2)] TCL_OK rfl (by decide) (by decide)
      rfl (by simp)).1 rfl

/-- Witness for C6 at a concrete error input: no command resolves, so the call
fails and the state is untouched. -/
theorem C6_hideCommand_witness :
    ((TCL_ERROR : Int) = TCL_OK →
      hasNsQualifier "tok" = false ∧
      (∃ cid c, (none : Option Nat) = some cid ∧
        tFind cid emptyInterp.commands = some c ∧ c.nsPtr = globalNsName) ∧
      tFind "tok" (emptyInterp.hiddenCmdTable.getD []) = none) ∧
    ((TCL_ERROR : Int) = TCL_ERROR →
      emptyInterp.namespaces = emptyInterp.namespaces ∧
      emptyInterp.commands = emptyInterp.commands ∧
      emptyInterp.hiddenCmdTable.getD [] = emptyInterp.hiddenCmdTable.getD []) ∧
    ((∀ k ∈ tKeys (emptyInterp.hiddenCmdTable.getD []), hasNsQualifier k = false) →
      ∀ k2 ∈ tKeys (emptyInterp.hiddenCmdTable.getD []), hasNsQualifier k2 = false) :=
  C6_hideCommand emptyInterp none "tok" TCL_ERROR emptyInterp rfl

/-- Witness for C2 at a concrete word sequence: one plain word, one expansion
of two elements, one empty expansion. -/
theorem C2_expansionSlots_witness :
    (buildObjvWords
        [{ isExpandToken := false, val := 3, listElems := none },
         { isExpandToken := true, val := 4, listElems := some [8, 9] },
         { isExpandToken := true, val := 5, listElems := some [] }]).length
      = ([{ isExpandToken := false, val := 3, listElems := none },
          { isExpandToken := true, val := 4, listElems := some [8, 9] },
          { isExpandToken := true, val := 5, listElems := some [] }].map
            (fun (w : EvalWord) =>
              if w.isExpandToken then (w.listElems.getD []).length else 1)).sum ∧
    objectsNeededLoop
        [{ isExpandToken := false, val := 3, listElems := none },
         { isExpandToken := true, val := 4, listElems := some [8, 9] },
         { isExpandToken := true, val := 5, listElems := some [] }]
      = some (([{ isExpandToken := false, val := 3, listElems := none },
          { isExpandToken := true, val := 4, listElems := some [8, 9] },
          { isExpandToken := true, val := 5, listElems := some [] }].map
            (fun (w : EvalWord) =>
              if w.isExpandToken then max 1 (w.listElems.getD []).length else 1)).sum) :=
  C2_expansionSlots _ (by decide)

/-! ## Claim C3 -/

theorem tErase_tSet {α β : Type} [DecidableEq α] (k : α) (v : β) (l : List (α × β)) :
    tErase k (tSet k v l) = tErase k l := by
  induction l with
  | nil => rfl
  | cons p rest ih =>
    obtain ⟨a, b⟩ := p
    by_cases hak : a = k <;> simp [tSet, tErase, hak, ih]

/-- Commands outside the re-linked import list are untouched by the
re-linking loop. -/
theorem relinkImports_not_mem (newId : Nat) (refs : List Nat) {r : Nat} (h : r ∉ refs) :
    ∀ cmds : List (Nat × Cmd),
      tFind r (relinkImports newId refs cmds) = tFind r cmds := by
  induction refs with
  | nil => intro cmds; rfl
  | cons r0 rest ih =>
    intro cmds
    have hr0 : r ≠ r0 := fun he => h (he ▸ List.mem_cons_self r0 rest)
    have hrest : r ∉ rest := fun hm => h (List.mem_cons_of_mem r0 hm)
    rw [relinkImports]
    cases hf : tFind r0 cmds with
    | none =>
      simp only [hf]
      exact ih hrest _
    | some rc0 =>
      simp only [hf]
      rw [ih hrest _]
      exact tFind_tSet_ne _ _ hr0

/-- Every command in the re-linked import list ends up with its
ImportedCmdData realCmdPtr pointed at the fresh command. -/
theorem relinkImports_mem (newId : Nat) (refs : List Nat) {r : Nat} (hmem : r ∈ refs) :
    ∀ (cmds : List (Nat × Cmd)) (rc : Cmd), tFind r cmds = some rc →
      tFind r (relinkImports newId refs cmds)
        = some { rc with objClientDataReal := some newId } := by
  induction refs with
  | nil => cases hmem
  | cons r0 rest ih =>
    intro cmds rc hfind
    rw [relinkImports]
    by_cases hr0 : r = r0
    · subst hr0
      simp only [hfind]
      have hstep : tFind r (tSet r { rc with objClientDataReal := some newId } cmds)
          = some { rc with objClientDataReal := some newId } :=
        tFind_tSet _ (by simp [hfind])
      by_cases hrest : r ∈ rest
      · have := ih hrest _ _ hstep
        simpa using this
      · rw [relinkImports_not_mem newId rest hrest _]
        exact hstep
    · have hmem2 : r ∈ rest := by
        rcases List.mem_cons.mp hmem with h1 | h1
        · exact absurd h1 hr0
        · exact h1
      cases hf : tFind r0 cmds with
      | none =>
        simp only [hf]
        exact ih hmem2 _ _ hfind
      | some rc0 =>
        simp only [hf]
        have hkeep : tFind r (tSet r0 { rc0 with objClientDataReal := some newId } cmds)
            = some rc := by
          rw [tFind_tSet_ne _ _ hr0]
          exact hfind
        exact ih hmem2 _ _ hkeep

/-- Execution of the main deletion path of Tcl_DeleteCommandFromToken for a
command with no import references, with arbitrary traces, compile procedure
and reference count: delete traces fire iff attached, the compile epoch is
bumped iff a compile procedure is present, the delete hook event fires iff a
hook is present, the command epoch bump is recorded, the table entry named by
hPtr is removed, and the struct is freed exactly when no extra reference
remains — otherwise it survives with the reference released, the flag set and
the handles cleared. -/
theorem delete_main_path (fuel : Nat) (st : Interp) (cid : Nat) (c : Cmd)
    (n k : String)
    (hc : tFind cid st.commands = some c)
    (hflag : c.isDeletedFlag = false)
    (hrefs : c.importRefs = [])
    (hp : c.hPtr = some (TablePtr.ns n k)) :
    Tcl_DeleteCommandFromToken (fuel + 1) st cid
      = some (0,
          { st with
            compileEpoch :=
              if c.hasCompileProc then st.compileEpoch + 1 else st.compileEpoch
            namespaces := tSet n (tErase k (nsTable st n)) st.namespaces
            commands :=
              if c.refCount - 1 ≤ 0 then tErase cid st.commands
              else tSet cid
                { c with
                  isDeletedFlag := true
                  traceCount := 0
                  cmdEpoch := c.cmdEpoch + 1
                  hPtr := none
                  objProc := 0
                  refCount := c.refCount - 1 } st.commands },
          (if c.traceCount ≠ 0 then [Event.firedDeleteTraces cid] else [])
            ++ (if c.hasCompileProc then [Event.bumpedCompileEpoch] else [])
            ++ (if c.hasDeleteProc then [Event.ranDeleteProc cid] else [])
            ++ [Event.bumpedCmdEpoch cid]
            ++ (if c.refCount - 1 ≤ 0 then [Event.freed cid] else [])) := by
  have hsome : (tFind cid st.commands).isSome := by simp [hc]
  rw [Tcl_DeleteCommandFromToken.eq_def]
  simp only []
  rw [hc]
  simp only [hflag, hrefs, hp]
  by_cases hcp : c.hasCompileProc
  all_goals
    simp only [hcp, Bool.false_eq_true, if_true, if_false, List.nil_append, List.append_nil,
      List.foldl_nil]
  all_goals
    rw [tFind_tSet _ (by simp [tFind_tSet _ hsome])]
  all_goals
    simp only [hp]
    simp only [tSet_tSet, deleteEntry, nsTable, TclCleanupCommand]
    rw [tFind_tSet _ hsome]
    simp only []
    by_cases hrc : c.refCount - 1 ≤ 0
  all_goals
    simp only [hrc, if_true, if_false, List.append_nil]
  all_goals
    simp only [tErase_tSet, tSet_tSet, List.append_assoc]

/-- C3 counterexample: registering over the name of an existing command whose
objProc is the TclInvokeStringCommand wrapper does not delete it: the call
fires no event at all (in particular the old command's delete hook never
runs), hands back the same Command id 1 updated in place rather than a fresh
one, and leaves the old command's epoch at 0. -/
theorem C3_counterexample :
    (Tcl_CreateObjCommand 3 stringCmdInterp globalNsName "orig" 2 5 false).map
        (fun r => r.2.2) = some [] ∧
    (Tcl_CreateObjCommand 3 stringCmdInterp globalNsName "orig" 2 5 false).map
        (fun r => r.1) = some (some 1) ∧
    (Tcl_CreateObjCommand 3 stringCmdInterp globalNsName "orig" 2 5 false).map
        (fun r => (tFind 1 r.2.1.commands).map (fun cc => cc.cmdEpoch))
      = some (some 0) := by
  refine ⟨?_, ?_, ?_⟩ <;> rfl

/-- C3 (amended): registering under a name held by an existing command whose
objProc is not the TclInvokeStringCommand wrapper — whatever its traces,
compile procedure, reference count or delete hook — deletes the old command
first: its delete hook runs exactly when present, its command epoch bump is
recorded, its table entry is removed (the struct itself is freed once no
extra reference holds it), and its import references are preserved on the
freshly inserted Command while each importing command is re-linked to point
at it.  (For a command whose objProc is TclInvokeStringCommand the
implementation is instead updated in place, see the counterexample.) -/
theorem C3_redefineRelinks (fuel : Nat) (st : Interp) (nsName tail : String)
    (tbl : List (String × Nat)) (oldId newId objProc : Nat) (oldC : Cmd)
    (hasDel : Bool)
    (h0 : st.interpDeleted = false)
    (hNs : tFind nsName st.namespaces = some tbl)
    (hTail : tFind tail tbl = some oldId)
    (hOld : tFind oldId st.commands = some oldC)
    (hStr : ¬oldC.objProc = tclInvokeStringCommandId)
    (hflag : oldC.isDeletedFlag = false)
    (hptr : oldC.hPtr = some (TablePtr.ns nsName tail))
    (hNew : tFind newId st.commands = none)
    (hNewFresh : newId ∉ oldC.importRefs)
    (hRefOld : oldId ∉ oldC.importRefs) :
    Tcl_CreateObjCommand (fuel + 1) st nsName tail newId objProc hasDel
      = some (some newId,
          { st with
            compileEpoch :=
              if oldC.hasCompileProc then st.compileEpoch + 1 else st.compileEpoch
            namespaces := tSet nsName ((tail, newId) :: tErase tail tbl)
              (tSet nsName (tErase tail tbl) st.namespaces)
            commands := relinkImports newId oldC.importRefs
              ((newId, freshCmd nsName tail objProc hasDel oldC.importRefs)
                :: (if oldC.refCount - 1 ≤ 0 then tErase oldId st.commands
                    else tSet oldId
                      { oldC with
                        isDeletedFlag := true
                        traceCount := 0
                        cmdEpoch := oldC.cmdEpoch + 1
                        hPtr := none
                        objProc := 0
                        refCount := oldC.refCount - 1
                        importRefs := [] } st.commands)) },
          (if oldC.traceCount ≠ 0 then [Event.firedDeleteTraces oldId] else [])
            ++ (if oldC.hasCompileProc then [Event.bumpedCompileEpoch] else [])
            ++ (if oldC.hasDeleteProc then [Event.ranDeleteProc oldId] else [])
            ++ [Event.bumpedCmdEpoch oldId]
            ++ (if oldC.refCount - 1 ≤ 0 then [Event.freed oldId] else [])) ∧
    (Event.ranDeleteProc oldId ∈
        (if oldC.traceCount ≠ 0 then [Event.firedDeleteTraces oldId] else [])
          ++ (if oldC.hasCompileProc then [Event.bumpedCompileEpoch] else [])
          ++ (if oldC.hasDeleteProc then [Event.ranDeleteProc oldId] else [])
          ++ [Event.bumpedCmdEpoch oldId]
          ++ (if oldC.refCount - 1 ≤ 0 then [Event.freed oldId] else [])
      ↔ oldC.hasDeleteProc = true) ∧
    Event.bumpedCmdEpoch oldId ∈
      (if oldC.traceCount ≠ 0 then [Event.firedDeleteTraces oldId] else [])
        ++ (if oldC.hasCompileProc then [Event.bumpedCompileEpoch] else [])
        ++ (if oldC.hasDeleteProc then [Event.ranDeleteProc oldId] else [])
        ++ [Event.bumpedCmdEpoch oldId]
        ++ (if oldC.refCount - 1 ≤ 0 then [Event.freed oldId] else []) ∧
    tFind newId (relinkImports newId oldC.importRefs
        ((newId, freshCmd nsName tail objProc hasDel oldC.importRefs)
          :: (if oldC.refCount - 1 ≤ 0 then tErase oldId st.commands
              else tSet oldId
                { oldC with
                  isDeletedFlag := true
                  traceCount := 0
                  cmdEpoch := oldC.cmdEpoch + 1
                  hPtr := none
                  objProc := 0
                  refCount := oldC.refCount - 1
                  importRefs := [] } st.commands)))
      = some (freshCmd nsName tail objProc hasDel oldC.importRefs) ∧
    (∀ r ∈ oldC.importRefs, ∀ rc, tFind r st.commands = some rc →
      tFind r (relinkImports newId oldC.importRefs
          ((newId, freshCmd nsName tail objProc hasDel oldC.importRefs)
            :: (if oldC.refCount - 1 ≤ 0 then tErase oldId st.commands
                else tSet oldId
                  { oldC with
                    isDeletedFlag := true
                    traceCount := 0
                    cmdEpoch := oldC.cmdEpoch + 1
                    hPtr := none
                    objProc := 0
                    refCount := oldC.refCount - 1
                    importRefs := [] } st.commands)))
        = some { rc with objClientDataReal := some newId }) := by
  have hOldSet : tFind oldId
      (tSet oldId { oldC with importRefs := [] } st.commands)
        = some { oldC with importRefs := [] } :=
    tFind_tSet _ (by simp [hOld])
  have hdel := delete_main_path fuel
    ({ st with commands := tSet oldId { oldC with importRefs := [] } st.commands })
    oldId ({ oldC with importRefs := [] }) nsName tail hOldSet hflag rfl hptr
  refine ⟨?_, ?_, ?_, ?_, ?_⟩
  · rw [Tcl_CreateObjCommand]
    rw [if_neg (by simp [h0])]
    rw [hNs]
    simp only []
    rw [hTail]
    simp only []
    rw [hOld]
    simp only []
    rw [if_neg hStr]
    rw [hdel]
    simp only []
    simp only [nsTable, tErase_tSet, tSet_tSet, hNs, Option.getD_some]
    rw [tFind_tSet _ (by simp [hNs])]
    simp only [Option.getD_some, tFind_tErase_self]
    rw [finishCreate]
    simp only [nsTable, hNs, Option.getD_some]
    rw [tFind_tSet _ (by simp [hNs])]
    simp only [Option.getD_some]
    rw [tErase_of_find_none (tFind_tErase_self tail tbl)]
    simp only [tSet_tSet]
  · constructor
    · intro hm
      by_cases hdp : oldC.hasDeleteProc
      · exact hdp
      · exfalso
        by_cases ht : oldC.traceCount = 0 <;>
          by_cases hcp : oldC.hasCompileProc <;>
          by_cases hrc : oldC.refCount - 1 ≤ 0 <;>
          simp [hdp, ht, hcp, hrc] at hm
    · intro hdp
      simp [hdp]
  · simp
  · rw [relinkImports_not_mem newId oldC.importRefs hNewFresh]
    simp [tFind]
  · intro r hr rc hfind
    have hrne : newId ≠ r := by
      intro he
      rw [← he, hNew] at hfind
      cases hfind
    refine relinkImports_mem newId oldC.importRefs hr _ _ ?_
    simp only [tFind, if_neg hrne]
    by_cases hrcase : oldC.refCount - 1 ≤ 0
    · rw [if_pos hrcase, tFind_tErase_ne _ (fun (he : r = oldId) => hRefOld (he ▸ hr))]
      exact hfind
    · rw [if_neg hrcase, tFind_tSet_ne _ _ (fun (he : r = oldId) => hRefOld (he ▸ hr))]
      exact hfind

/-- Witness for C3 (amended): redefining "orig" (implementation 7, one import
reference, a delete hook, no extra reference) in the sample interpreter: the
old command is deleted (hook ran, epoch bump and free recorded) and the fresh
command id 3 inherits the import reference. -/
theorem C3_redefineRelinks_witness :
    Tcl_CreateObjCommand 1 importInterp globalNsName "orig" 3 11 false
      = some (some 3,
          { importInterp with
            namespaces := tSet globalNsName (("orig", 3) :: tErase "orig" [("orig", 1)])
              (tSet globalNsName (tErase "orig" [("orig", 1)]) importInterp.namespaces)
            commands := relinkImports 3 [2]
              ((3, freshCmd globalNsName "orig" 11 false [2])
                :: tErase 1 importInterp.commands) },
          [Event.ranDeleteProc 1] ++ [Event.bumpedCmdEpoch 1] ++ [Event.freed 1]) :=
  (C3_redefineRelinks 0 importInterp globalNsName "orig" [("orig", 1)] 1 3 11
      ({ mkCmd globalNsName "orig" 7 with hasDeleteProc := true, importRefs := [2] }) false
      rfl rfl rfl rfl (by decide) rfl rfl rfl (by decide) (by decide)).1

end TclCore
